import Mathlib

/-!
Shallow embedding of the process-lock core of `caffeinate2`
(`src/process_lock.rs` and `src/lock_logic.rs`).

Conventions of the embedding:
* Rust `i32` values are `Int` with explicit range guards where the source
  checks them (integer parsing rejects out-of-range values); `u64` values
  are `Nat` with a `< 2^64` guard in parsing.
* The lock file is modelled by the list of its lines, each line a
  `List Char`; the source writes one record per line with `writeln!` and
  reads with `str::lines`.
* External capabilities (the `kill` liveness probe, `proc_pidinfo` start
  time lookup, the IOKit sleep setter) are parameters of the embedded
  functions, mirroring the `SleepDisabler` / `ProcessChecker` injection
  points of the source.
-/

namespace Caffeinate

/-- Result of the zero-signal `kill(pid, None)` probe used by
`default_process_checker` in `src/process_lock.rs`. -/
inductive KillResult where
  | ok
  | esrch
  | otherErr
deriving DecidableEq, Repr

/-- Rust struct `ProcessId { pid: i32, start_time: u64 }`
(`src/process_lock.rs` lines 13-17). -/
structure ProcessId where
  pid : Int
  start_time : Nat
deriving DecidableEq, Repr

/-- Well-formedness of a `ProcessId`: the numeric fields fit in the Rust
types `i32` and `u64`. -/
def WFId (p : ProcessId) : Prop :=
  -(2 : Int) ^ 31 ≤ p.pid ∧ p.pid < 2 ^ 31 ∧ p.start_time < 2 ^ 64

instance (p : ProcessId) : Decidable (WFId p) := by
  unfold WFId; infer_instance

/-! Character-level helpers modelling Rust's `str::trim`, `str::split(':')`
and the standard integer `FromStr` implementations. -/

/-- Value accumulated by decimal digit parsing: the fold mirrors how Rust's
integer `from_str` accumulates `acc * 10 + digit`. -/
def digitsVal (cs : List Char) : Nat :=
  cs.foldl (fun a c => a * 10 + (c.toNat - 48)) 0

/-- Parse a non-empty all-ASCII-digit string, as Rust's integer `from_str`
does for the digits part (sign handling is done by the callers). -/
def parseDigits (cs : List Char) : Option Nat :=
  if cs = [] then none
  else if cs.all Char.isDigit then some (digitsVal cs) else none

/-- Rust `u64::from_str`: optional single leading `+`, then decimal digits,
value must fit in 64 bits. -/
def parseU64 (cs : List Char) : Option Nat :=
  match parseDigits (if cs.head? = some '+' then cs.tail else cs) with
  | some v => if v < 2 ^ 64 then some v else none
  | none => none

/-- Rust `i32::from_str`: optional single leading `+` or `-`, then decimal
digits, value must fit in 32 bits (`-2^31 ≤ v ≤ 2^31 - 1`). -/
def parseI32 (cs : List Char) : Option Int :=
  if cs.head? = some '-' then
    match parseDigits cs.tail with
    | some v => if v ≤ 2 ^ 31 then some (-(v : Int)) else none
    | none => none
  else
    match parseDigits (if cs.head? = some '+' then cs.tail else cs) with
    | some v => if v < 2 ^ 31 then some ((v : Int)) else none
    | none => none

/-- Rust `str::trim` (restricted to the whitespace characters that can
appear here): drop whitespace from both ends. -/
def trimChars (l : List Char) : List Char :=
  ((l.dropWhile Char.isWhitespace).reverse.dropWhile Char.isWhitespace).reverse

/-- Rust `str::split(':')` on a line: split into the (possibly empty)
chunks between colons. -/
def splitOnColon : List Char → List (List Char)
  | [] => [[]]
  | c :: rest =>
    match splitOnColon rest with
    | [] => if c = ':' then [[], []] else [[c]]
    | s :: ss => if c = ':' then [] :: s :: ss else (c :: s) :: ss

/-- `impl FromStr for ProcessId` (`src/process_lock.rs` lines 25-37): trim
the line, split on `:`, require exactly two parts, parse them as `i32` and
`u64`; any failure yields `none` (Rust `Err(())`). -/
def ProcessId.from_str (s : List Char) : Option ProcessId :=
  match splitOnColon (trimChars s) with
  | [p, st] =>
    match parseI32 p, parseU64 st with
    | some pid, some start => some ⟨pid, start⟩
    | _, _ => none
  | _ => none

/-- Little-endian base-10 digits, computed with explicit fuel so that it
reduces by `rfl` (the first argument is the fuel). -/
def toDigitsRevAux : Nat → Nat → List Nat
  | 0, _ => []
  | fuel + 1, n => if n = 0 then [] else n % 10 :: toDigitsRevAux fuel (n / 10)

/-- Little-endian base-10 digits of `n`. -/
def toDigitsRev (n : Nat) : List Nat := toDigitsRevAux n n

/-- Decimal printing of a `Nat`, as Rust's `Display` for unsigned integers:
most significant digit first, `"0"` for zero. -/
def natToChars (n : Nat) : List Char :=
  if n = 0 then ['0'] else ((toDigitsRev n).map Nat.digitChar).reverse

/-- Decimal printing of an `Int`, as Rust's `Display` for `i32`: a leading
`-` for negative values. -/
def intToChars (i : Int) : List Char :=
  if i < 0 then '-' :: natToChars i.natAbs else natToChars i.natAbs

/-- `impl Display for ProcessId` (`src/process_lock.rs` lines 19-23):
`"{pid}:{start_time}"`. -/
def ProcessId.display (p : ProcessId) : List Char :=
  intToChars p.pid ++ ':' :: natToChars p.start_time

/-! The registry: reading, liveness cleanup, toggle step and writing, from
`update_lockfile` in `src/process_lock.rs` (lines 159-257). -/

/-- Read step of `update_lockfile` (lines 207-210): parse each line with
`ProcessId::from_str`, keep the successes, collect into a `HashSet`
(modelled as a duplicate-free list in first-occurrence order). -/
def readPids (lines : List (List Char)) : List ProcessId :=
  (lines.filterMap ProcessId.from_str).dedup

/-- Write step of `update_lockfile` (lines 240-248): one `Display`-formatted
record per line. -/
def serializeRegistry (pids : List ProcessId) : List (List Char) :=
  pids.map ProcessId.display

/-- Retention predicate of the `pids.retain` cleanup pass of
`update_lockfile` (lines 213-228): the caller's exact identity is kept
unconditionally, every other entry is kept iff the process checker approves
it. -/
def retainPred (cur : ProcessId) (checker : Int → Nat → Bool) (p : ProcessId) : Bool :=
  (decide (p.pid = cur.pid) && decide (p.start_time = cur.start_time))
    || checker p.pid p.start_time

/-- Pure toggle step of `update_lockfile` (lines 230-254): count before,
`HashSet::insert` / `HashSet::remove` of the caller's identity, count
after; the toggle is `before == 0` on add and `after == 0` on remove. -/
def applyToggle (pids : List ProcessId) (cur : ProcessId) (add : Bool) :
    List ProcessId × Bool :=
  let before := pids.length
  let pids := if add then (if cur ∈ pids then pids else pids ++ [cur])
              else pids.erase cur
  let after := pids.length
  (pids, if add then decide (before = 0) else decide (after = 0))

/-- Errors `update_lockfile` can surface before reaching the write step. -/
inductive LockErr where
  | openFailed
  | lockFailed
  | fstatFailed
  | replaced
deriving DecidableEq, Repr

/-- Filesystem state visible to one `update_lockfile` call: whether
`OpenOptions::open` and `Flock::lock` succeed, the inode reported by
`fstat` on the locked descriptor (`none` when `fstat` fails), the inode
reported by a fresh `stat` of the path (`none` when that `stat` fails), and
the lock file's contents as its list of lines. -/
structure LockWorld where
  openOk : Bool
  lockOk : Bool
  fstatIno : Option Nat
  pathIno : Option Nat
  content : List (List Char)
deriving DecidableEq, Repr

/-- Body of `update_lockfile` once the open / lock / inode checks have
passed: read, parse, cleanup, toggle step, truncate-and-rewrite. -/
def lockfileBody (add : Bool) (w : LockWorld) (cur : ProcessId)
    (checker : Int → Nat → Bool) : Except LockErr Bool × LockWorld :=
  let pids := readPids w.content
  let pids := pids.filter (retainPred cur checker)
  let res := applyToggle pids cur add
  (Except.ok res.2, { w with content := serializeRegistry res.1 })

/-- `update_lockfile` (`src/process_lock.rs` lines 159-257): open the lock
file, take the exclusive lock, compare the locked file's inode against a
fresh stat of the path (only when that stat succeeds), then read, clean up,
apply the toggle step and rewrite. Every error path returns before the
write, leaving the contents unchanged. -/
def update_lockfile (add : Bool) (w : LockWorld) (cur : ProcessId)
    (checker : Int → Nat → Bool) : Except LockErr Bool × LockWorld :=
  if w.openOk = false then (Except.error LockErr.openFailed, w)
  else if w.lockOk = false then (Except.error LockErr.lockFailed, w)
  else
    match w.fstatIno with
    | none => (Except.error LockErr.fstatFailed, w)
    | some ino =>
      match w.pathIno with
      | some pathIno =>
        if ino ≠ pathIno then (Except.error LockErr.replaced, w)
        else lockfileBody add w cur checker
      | none => lockfileBody add w cur checker

/-- `default_process_checker` (`src/process_lock.rs` lines 109-129),
parametrised by the current pid and the two external probes it consumes:
`kill(pid, None)` and `get_process_start_time` (which the source makes
total by returning 0 when `proc_pidinfo` fails). -/
def default_process_checker (currentId : Int) (kill : Int → KillResult)
    (get_start : Int → Nat) (pid : Int) (start_time : Nat) : Bool :=
  if pid = currentId then true
  else
    let is_alive : Bool :=
      match kill pid with
      | KillResult.ok => true
      | KillResult.esrch => false
      | KillResult.otherErr => true
    if is_alive then decide (get_start pid = start_time) else false

/-- Errors surfaced by `ProcessLock::with_options`: a lock file error, or a
failure of the injected sleep disabler (IOKit error code). -/
inductive AcqErr where
  | io (e : LockErr)
  | sleep (code : Nat)
deriving DecidableEq, Repr

/-- `ProcessLock::with_options` (`src/process_lock.rs` lines 78-107): run
the acquire-side registry update; on toggle, call the sleep disabler and
fail construction if it fails. Returns the constructor's result together
with the filesystem state it leaves behind. -/
def with_options (w : LockWorld) (cur : ProcessId)
    (checker : Int → Nat → Bool) (sleep_disabler : Bool → Except Nat Unit) :
    Except AcqErr Unit × LockWorld :=
  match update_lockfile true w cur checker with
  | (Except.error e, w2) => (Except.error (AcqErr.io e), w2)
  | (Except.ok should_disable, w2) =>
    if should_disable then
      match sleep_disabler true with
      | Except.error code => (Except.error (AcqErr.sleep code), w2)
      | Except.ok _ => (Except.ok (), w2)
    else (Except.ok (), w2)

/-- Message printed to stderr by `Drop for ProcessLock` when re-enabling
sleep fails. -/
def enableFailMsg : String := "Error: Failed to re-enable sleep"

/-- Message printed to stderr by `Drop for ProcessLock` when the lock file
update itself fails during exit. -/
def dropUpdateFailMsg : String := "Error updating lockfile during exit"

/-- `Drop for ProcessLock` (`src/process_lock.rs` lines 131-156): run the
release-side registry update; on toggle, call the sleep enabler, reporting
a failure to stderr; an update failure is also only reported. The function
is total: dropping always completes. Returns the filesystem state left
behind and the stderr lines emitted. -/
def drop_lock (w : LockWorld) (cur : ProcessId)
    (checker : Int → Nat → Bool) (sleep_disabler : Bool → Except Nat Unit) :
    LockWorld × List String :=
  match update_lockfile false w cur checker with
  | (Except.ok should_enable, w2) =>
    if should_enable then
      match sleep_disabler false with
      | Except.error _ => (w2, [enableFailMsg])
      | Except.ok _ => (w2, [])
    else (w2, [])
  | (Except.error _, w2) => (w2, [dropUpdateFailMsg])

/-! The pure PID-list variant, from `update_pid_list` in
`src/lock_logic.rs` (lines 17-56), where identities degrade to bare
`i32` PIDs. -/

/-- Liveness cleanup pass of `update_pid_list` (lines 28-33): the current
PID is kept unconditionally, every other PID is kept iff `check_alive`
approves it. -/
def livenessFilter (pids : List Int) (current_pid : Int) (verbose : Bool)
    (check_alive : Int → Bool → Bool) : List Int :=
  pids.filter (fun pid => decide (pid = current_pid) || check_alive pid verbose)

/-- `update_pid_list` (`src/lock_logic.rs` lines 17-56): cleanup, count
before, push the current PID if absent (add) or remove its first occurrence
(release), count after; toggle is `before == 0` on add and `after == 0` on
release. -/
def update_pid_list (pids : List Int) (current_pid : Int) (add : Bool)
    (verbose : Bool) (check_alive : Int → Bool → Bool) : List Int × Bool :=
  let pids := livenessFilter pids current_pid verbose check_alive
  let before := pids.length
  let pids := if add then (if current_pid ∈ pids then pids else pids ++ [current_pid])
              else pids.erase current_pid
  let after := pids.length
  (pids, if add then decide (before = 0) else decide (after = 0))

/-! Trace semantics for the temporal claim: a sequence of Acquire/Release
operations, each run through `update_pid_list` with every process alive
(no crashes). -/

/-- One step of a no-crash trace: `(true, i)` is Acquire by identity `i`,
`(false, i)` is Release by identity `i`; the liveness probe reports every
PID alive. -/
def stepOp (S : List Int) (op : Bool × Int) : List Int × Bool :=
  update_pid_list S op.2 op.1 false (fun _ _ => true)

/-- State of the trace after the first `k` operations. -/
def stateAt (S : List Int) (ops : List (Bool × Int)) (k : Nat) : List Int :=
  (ops.take k).foldl (fun s op => (stepOp s op).1) S

/-- Well-formedness of a trace: every Acquire is by an identity not
currently registered and every Release by one currently registered. -/
def WellFormedB : List Int → List (Bool × Int) → Bool
  | _, [] => true
  | S, op :: rest =>
    (if op.1 then decide (op.2 ∉ S) else decide (op.2 ∈ S))
      && WellFormedB (stepOp S op).1 rest

/-- Per-step specification of the toggle signal: on Acquire the toggle
fires true exactly when the live set was empty (the 0 to 1 transition) and
the count grows by one; on Release the toggle fires exactly when the live
set becomes empty (the 1 to 0 transition) and the count shrinks by exactly
one (so it never underflows). -/
def StepSpec (S : List Int) (op : Bool × Int) : Prop :=
  (op.1 = true →
    (((stepOp S op).2 = true) ↔ S = []) ∧ (stepOp S op).1.length = S.length + 1)
  ∧ (op.1 = false →
    (((stepOp S op).2 = true) ↔ (stepOp S op).1 = []) ∧ S.length = (stepOp S op).1.length + 1)

instance (S : List Int) (op : Bool × Int) : Decidable (StepSpec S op) := by
  unfold StepSpec; infer_instance

/-! Lemmas about decimal printing and parsing, leading to the print/parse
round trip for `ProcessId`. -/

theorem digitChar_toNat_sub : ∀ d, d < 10 → (Nat.digitChar d).toNat - 48 = d := by decide

theorem digitChar_isDigit : ∀ d, d < 10 → (Nat.digitChar d).isDigit = true := by decide

theorem digitChar_not_ws : ∀ d, d < 10 → (Nat.digitChar d).isWhitespace = false := by decide

theorem digitChar_ne_colon : ∀ d, d < 10 → Nat.digitChar d ≠ ':' := by decide

theorem digitChar_ne_plus : ∀ d, d < 10 → Nat.digitChar d ≠ '+' := by decide

theorem digitChar_ne_minus : ∀ d, d < 10 → Nat.digitChar d ≠ '-' := by decide

theorem toDigitsRevAux_eq (fuel n : Nat) (h : n ≤ fuel) :
    toDigitsRevAux fuel n = Nat.digits 10 n := by
  induction fuel generalizing n with
  | zero =>
    have hn : n = 0 := Nat.le_zero.mp h
    subst hn
    simp [toDigitsRevAux, Nat.digits_zero]
  | succ fuel ih =>
    by_cases hn : n = 0
    · subst hn
      simp [toDigitsRevAux, Nat.digits_zero]
    · rw [toDigitsRevAux, if_neg hn, ih (n / 10) (by omega),
        Nat.digits_def' (by norm_num : 1 < 10) (Nat.pos_of_ne_zero hn)]

theorem toDigitsRev_eq (n : Nat) : toDigitsRev n = Nat.digits 10 n :=
  toDigitsRevAux_eq n n le_rfl

theorem natToChars_eq (n : Nat) :
    natToChars n = if n = 0 then ['0'] else ((Nat.digits 10 n).map Nat.digitChar).reverse := by
  rw [natToChars, toDigitsRev_eq]

theorem mem_natToChars {n : Nat} {c : Char} (h : c ∈ natToChars n) :
    ∃ d, d < 10 ∧ c = Nat.digitChar d := by
  rw [natToChars_eq] at h
  split at h
  · refine ⟨0, by norm_num, ?_⟩
    simpa using h
  · rw [List.mem_reverse, List.mem_map] at h
    obtain ⟨d, hd, rfl⟩ := h
    exact ⟨d, Nat.digits_lt_base (by norm_num) hd, rfl⟩

theorem natToChars_ne_nil (n : Nat) : natToChars n ≠ [] := by
  rw [natToChars_eq]
  split
  · simp
  · simp [Nat.digits_ne_nil_iff_ne_zero, *]

theorem digitsVal_append (l : List Char) (c : Char) :
    digitsVal (l ++ [c]) = digitsVal l * 10 + (c.toNat - 48) := by
  simp [digitsVal, List.foldl_append]

theorem digitsVal_rev_map (ds : List Nat) (h : ∀ d ∈ ds, d < 10) :
    digitsVal ((ds.map Nat.digitChar).reverse) = Nat.ofDigits 10 ds := by
  induction ds with
  | nil => simp [digitsVal, Nat.ofDigits_nil]
  | cons d ds ih =>
    have hd : d < 10 := h d (List.mem_cons_self d ds)
    have hds : ∀ x ∈ ds, x < 10 := fun x hx => h x (List.mem_cons_of_mem d hx)
    rw [List.map_cons, List.reverse_cons, digitsVal_append, ih hds,
      digitChar_toNat_sub d hd, Nat.ofDigits_cons]
    ring

theorem digitsVal_natToChars (n : Nat) : digitsVal (natToChars n) = n := by
  rw [natToChars_eq]
  split
  · simpa [digitsVal] using (by omega : 0 = n)
  · rw [digitsVal_rev_map _ (fun d hd => Nat.digits_lt_base (by norm_num) hd),
      Nat.ofDigits_digits]

theorem parseDigits_natToChars (n : Nat) : parseDigits (natToChars n) = some n := by
  unfold parseDigits
  rw [if_neg (natToChars_ne_nil n), if_pos, digitsVal_natToChars]
  rw [List.all_eq_true]
  intro c hc
  obtain ⟨d, hd, rfl⟩ := mem_natToChars hc
  exact digitChar_isDigit d hd

theorem natToChars_head?_digit (n : Nat) :
    ∃ c cs, natToChars n = c :: cs ∧ ∃ d, d < 10 ∧ c = Nat.digitChar d := by
  cases hc : natToChars n with
  | nil => exact absurd hc (natToChars_ne_nil n)
  | cons c cs =>
    exact ⟨c, cs, rfl, mem_natToChars (hc ▸ List.mem_cons_self c cs)⟩

theorem parseU64_natToChars (n : Nat) (h : n < 2 ^ 64) :
    parseU64 (natToChars n) = some n := by
  obtain ⟨c, cs, hc, d, hd, rfl⟩ := natToChars_head?_digit n
  rw [parseU64, hc, if_neg (by simp [digitChar_ne_plus d hd]), ← hc,
    parseDigits_natToChars]
  show (if n < 2 ^ 64 then some n else none) = some n
  rw [if_pos h]

theorem parseI32_intToChars (i : Int) (h1 : -(2 : Int) ^ 31 ≤ i) (h2 : i < 2 ^ 31) :
    parseI32 (intToChars i) = some i := by
  unfold intToChars
  split
  · rename_i hneg
    rw [parseI32,
      if_pos (show (('-' :: natToChars i.natAbs).head? = some '-') from rfl),
      List.tail_cons, parseDigits_natToChars]
    show (if i.natAbs ≤ 2 ^ 31 then some (-((i.natAbs : Int))) else none) = some i
    rw [if_pos (by omega : i.natAbs ≤ 2 ^ 31)]
    exact congrArg some (by omega)
  · rename_i hpos
    obtain ⟨c, cs, hc, d, hd, rfl⟩ := natToChars_head?_digit i.natAbs
    rw [parseI32, hc, if_neg (by simp [digitChar_ne_minus d hd]),
      if_neg (by simp [digitChar_ne_plus d hd]), ← hc, parseDigits_natToChars]
    show (if i.natAbs < 2 ^ 31 then some ((i.natAbs : Int)) else none) = some i
    rw [if_pos (by omega : i.natAbs < 2 ^ 31)]
    exact congrArg some (by omega)

theorem splitOnColon_ne_nil (l : List Char) : splitOnColon l ≠ [] := by
  induction l with
  | nil => simp [splitOnColon]
  | cons c rest ih =>
    cases h : splitOnColon rest with
    | nil => exact absurd h ih
    | cons s ss =>
      simp only [splitOnColon, h]
      split <;> simp

theorem splitOnColon_no_colon (l : List Char) (h : ∀ c ∈ l, c ≠ ':') :
    splitOnColon l = [l] := by
  induction l with
  | nil => rfl
  | cons c rest ih =>
    have hr : splitOnColon rest = [rest] :=
      ih (fun x hx => h x (List.mem_cons_of_mem c hx))
    simp only [splitOnColon, hr]
    rw [if_neg (h c (List.mem_cons_self c rest))]

theorem splitOnColon_append (a b : List Char) (ha : ∀ c ∈ a, c ≠ ':') :
    splitOnColon (a ++ ':' :: b) = a :: splitOnColon b := by
  induction a with
  | nil =>
    cases hb : splitOnColon b with
    | nil => exact absurd hb (splitOnColon_ne_nil b)
    | cons s ss =>
      simp only [List.nil_append, splitOnColon, hb]
      simp
  | cons c a ih =>
    have ha' : ∀ x ∈ a, x ≠ ':' := fun x hx => ha x (List.mem_cons_of_mem c hx)
    cases hb : splitOnColon b with
    | nil => exact absurd hb (splitOnColon_ne_nil b)
    | cons s ss =>
      simp only [List.cons_append, splitOnColon, List.append_eq, ih ha', hb]
      rw [if_neg (ha c (List.mem_cons_self c a))]

theorem dropWhile_all_false (p : Char → Bool) (l : List Char)
    (h : ∀ c ∈ l, p c = false) : l.dropWhile p = l := by
  cases l with
  | nil => rfl
  | cons c cs =>
    rw [List.dropWhile_cons, if_neg]
    rw [h c (List.mem_cons_self c cs)]
    simp

theorem trimChars_eq_self (l : List Char) (h : ∀ c ∈ l, c.isWhitespace = false) :
    trimChars l = l := by
  unfold trimChars
  rw [dropWhile_all_false _ _ h,
    dropWhile_all_false _ _ (fun c hc => h c (List.mem_reverse.mp hc)),
    List.reverse_reverse]

theorem mem_intToChars {i : Int} {c : Char} (h : c ∈ intToChars i) :
    c = '-' ∨ ∃ d, d < 10 ∧ c = Nat.digitChar d := by
  unfold intToChars at h
  split at h
  · rcases List.mem_cons.mp h with h | h
    · exact Or.inl h
    · exact Or.inr (mem_natToChars h)
  · exact Or.inr (mem_natToChars h)

theorem display_not_ws (p : ProcessId) :
    ∀ c ∈ ProcessId.display p, c.isWhitespace = false := by
  intro c hc
  unfold ProcessId.display at hc
  rcases List.mem_append.mp hc with h | h
  · rcases mem_intToChars h with rfl | ⟨d, hd, rfl⟩
    · decide
    · exact digitChar_not_ws d hd
  · rcases List.mem_cons.mp h with rfl | h
    · decide
    · obtain ⟨d, hd, rfl⟩ := mem_natToChars h
      exact digitChar_not_ws d hd

/-- Print/parse round trip for one registry record: `Display` followed by
`FromStr` is the identity on well-formed identities. -/
theorem from_str_display (p : ProcessId) (h : WFId p) :
    ProcessId.from_str (ProcessId.display p) = some p := by
  obtain ⟨h1, h2, h3⟩ := h
  have hsplit : splitOnColon (trimChars (ProcessId.display p)) =
      [intToChars p.pid, natToChars p.start_time] := by
    rw [trimChars_eq_self _ (display_not_ws p)]
    unfold ProcessId.display
    rw [splitOnColon_append _ _ ?_, splitOnColon_no_colon _ ?_]
    · intro c hc
      obtain ⟨d, hd, rfl⟩ := mem_natToChars hc
      exact digitChar_ne_colon d hd
    · intro c hc
      rcases mem_intToChars hc with rfl | ⟨d, hd, rfl⟩
      · decide
      · exact digitChar_ne_colon d hd
  rw [ProcessId.from_str, hsplit]
  simp only [parseI32_intToChars p.pid h1 h2, parseU64_natToChars p.start_time h3]

/-! Helper lemmas for the toggle algorithm and the registry. -/

theorem livenessFilter_of_all_alive (S : List Int) (I : Int) (v : Bool)
    (check : Int → Bool → Bool) (hlive : ∀ p ∈ S, check p v = true) :
    livenessFilter S I v check = S := by
  unfold livenessFilter
  rw [List.filter_eq_self]
  intro p hp
  rw [hlive p hp, Bool.or_true]

theorem update_pid_list_add_eq (S : List Int) (I : Int) (v : Bool)
    (check : Int → Bool → Bool) :
    update_pid_list S I true v check =
      ((if I ∈ livenessFilter S I v check then livenessFilter S I v check
        else livenessFilter S I v check ++ [I]),
       decide ((livenessFilter S I v check).length = 0)) := rfl

theorem update_pid_list_remove_eq (S : List Int) (I : Int) (v : Bool)
    (check : Int → Bool → Bool) :
    update_pid_list S I false v check =
      ((livenessFilter S I v check).erase I,
       decide (((livenessFilter S I v check).erase I).length = 0)) := rfl

theorem applyToggle_add_eq (P : List ProcessId) (J : ProcessId) :
    applyToggle P J true =
      ((if J ∈ P then P else P ++ [J]), decide (P.length = 0)) := rfl

theorem applyToggle_remove_eq (P : List ProcessId) (J : ProcessId) :
    applyToggle P J false =
      (P.erase J, decide ((P.erase J).length = 0)) := rfl

theorem filterMap_id_of {α : Type} (f : α → Option α) (l : List α)
    (h : ∀ a ∈ l, f a = some a) : l.filterMap f = l := by
  induction l with
  | nil => rfl
  | cons a l ih =>
    rw [List.filterMap_cons, h a (List.mem_cons_self a l),
      ih (fun x hx => h x (List.mem_cons_of_mem a hx))]

theorem parseI32_range (a : List Char) (i : Int) (h : parseI32 a = some i) :
    -(2 : Int) ^ 31 ≤ i ∧ i < 2 ^ 31 := by
  unfold parseI32 at h
  split at h
  · cases hv : parseDigits a.tail with
    | none => rw [hv] at h; simp at h
    | some v =>
      rw [hv] at h
      simp only [] at h
      split at h
      · cases h; constructor <;> [omega; omega]
      · simp at h
  · cases hv : parseDigits (if a.head? = some '+' then a.tail else a) with
    | none => rw [hv] at h; simp at h
    | some v =>
      rw [hv] at h
      simp only [] at h
      split at h
      · cases h; constructor <;> [omega; omega]
      · simp at h

theorem parseU64_range (b : List Char) (n : Nat) (h : parseU64 b = some n) :
    n < 2 ^ 64 := by
  unfold parseU64 at h
  cases hv : parseDigits (if b.head? = some '+' then b.tail else b) with
  | none => rw [hv] at h; simp at h
  | some v =>
    rw [hv] at h
    simp only [] at h
    split at h
    · cases h; omega
    · simp at h

/-- Parsing only ever produces identities whose fields fit in `i32` / `u64`:
the range guards of `parseI32` and `parseU64` enforce it. -/
theorem from_str_wf (s : List Char) (p : ProcessId)
    (h : ProcessId.from_str s = some p) : WFId p := by
  unfold ProcessId.from_str at h
  split at h
  · rename_i a b hab
    cases hpid : parseI32 a with
    | none => rw [hpid] at h; simp at h
    | some pid =>
      cases hst : parseU64 b with
      | none => rw [hpid, hst] at h; simp at h
      | some st =>
        rw [hpid, hst] at h
        simp only [Option.some.injEq] at h
        subst h
        obtain ⟨h1, h2⟩ := parseI32_range a pid hpid
        exact ⟨h1, h2, parseU64_range b st hst⟩
  · simp at h

theorem mem_readPids_serialize (l : List ProcessId) (cur : ProcessId)
    (h : cur ∈ l) (hwf : WFId cur) : cur ∈ readPids (serializeRegistry l) := by
  unfold readPids serializeRegistry
  rw [List.mem_dedup]
  exact List.mem_filterMap.mpr
    ⟨ProcessId.display cur, List.mem_map_of_mem _ h, from_str_display cur hwf⟩

theorem mem_applyToggle_add (P : List ProcessId) (cur : ProcessId) :
    cur ∈ (applyToggle P cur true).1 := by
  rw [applyToggle_add_eq]
  by_cases h : cur ∈ P
  · rw [if_pos h]
    exact h
  · rw [if_neg h]
    simp

theorem lockfileBody_records (w : LockWorld) (cur : ProcessId)
    (checker : Int → Nat → Bool) (hwf : WFId cur) :
    cur ∈ readPids (lockfileBody true w cur checker).2.content :=
  mem_readPids_serialize _ cur (mem_applyToggle_add _ cur) hwf

/-- A successful `update_lockfile` call is exactly a `lockfileBody` call:
every guard (open, lock, fstat, inode comparison) must have passed. -/
theorem update_lockfile_ok_eq (add : Bool) (w : LockWorld) (cur : ProcessId)
    (checker : Int → Nat → Bool) (b : Bool)
    (hok : (update_lockfile add w cur checker).1 = Except.ok b) :
    update_lockfile add w cur checker = lockfileBody add w cur checker := by
  unfold update_lockfile at hok ⊢
  by_cases ho : w.openOk = false
  · rw [if_pos ho] at hok
    simp at hok
  rw [if_neg ho] at hok ⊢
  by_cases hl : w.lockOk = false
  · rw [if_pos hl] at hok
    simp at hok
  rw [if_neg hl] at hok ⊢
  cases hf : w.fstatIno with
  | none =>
    rw [hf] at hok
    simp at hok
  | some i =>
    rw [hf] at hok
    simp only [] at hok ⊢
    cases hp : w.pathIno with
    | none => rfl
    | some j =>
      rw [hp] at hok
      simp only [] at hok ⊢
      by_cases hij : i ≠ j
      · rw [if_pos hij] at hok
        simp at hok
      · rw [if_neg hij]

theorem with_options_sleep_fail (w : LockWorld) (cur : ProcessId)
    (checker : Int → Nat → Bool) (dis : Bool → Except Nat Unit) (c : Nat)
    (h1 : (update_lockfile true w cur checker).1 = Except.ok true)
    (h2 : dis true = Except.error c) :
    with_options w cur checker dis =
      (Except.error (AcqErr.sleep c), (update_lockfile true w cur checker).2) := by
  unfold with_options
  cases hu : update_lockfile true w cur checker with
  | mk r w2 =>
    rw [hu] at h1
    simp only [] at h1
    subst h1
    simp [h2]

theorem drop_lock_enable_fail (w : LockWorld) (cur : ProcessId)
    (checker : Int → Nat → Bool) (dis : Bool → Except Nat Unit) (c : Nat)
    (h1 : (update_lockfile false w cur checker).1 = Except.ok true)
    (h2 : dis false = Except.error c) :
    drop_lock w cur checker dis =
      ((update_lockfile false w cur checker).2, [enableFailMsg]) := by
  unfold drop_lock
  cases hu : update_lockfile false w cur checker with
  | mk r w2 =>
    rw [hu] at h1
    simp only [] at h1
    subst h1
    simp [h2]

/-! Claim theorems. -/

/-- C1: the Toggle Algorithm on a filtered live set S with caller identity
I: Acquire with I not in S returns S with I appended (as a set, S union
{I}) and toggle true iff S was empty before insertion; Acquire with I in S
is a no-op with toggle false; Release returns S minus I with toggle true
iff the set is empty after removal. Proved for both the pure PID-list
variant (`update_pid_list`, with a liveness probe that keeps all of S, so
S is its own filtered live set) and the set step of the lock-file update
(`applyToggle`). -/
theorem toggle_algorithm_correct (S : List Int) (I : Int) (v : Bool)
    (check : Int → Bool → Bool) (hnd : S.Nodup)
    (hlive : ∀ p ∈ S, check p v = true) :
    (I ∉ S →
      update_pid_list S I true v check = (S ++ [I], decide (S.length = 0)) ∧
      ∀ x, x ∈ S ++ [I] ↔ x ∈ S ∨ x = I) ∧
    (I ∈ S → update_pid_list S I true v check = (S, false)) ∧
    (update_pid_list S I false v check = (S.erase I, decide ((S.erase I).length = 0)) ∧
      ∀ x, x ∈ S.erase I ↔ x ∈ S ∧ x ≠ I) ∧
    (∀ (P : List ProcessId) (J : ProcessId), P.Nodup →
      (J ∉ P →
        applyToggle P J true = (P ++ [J], decide (P.length = 0)) ∧
        ∀ q, q ∈ P ++ [J] ↔ q ∈ P ∨ q = J) ∧
      (J ∈ P → applyToggle P J true = (P, false)) ∧
      (applyToggle P J false = (P.erase J, decide ((P.erase J).length = 0)) ∧
        ∀ q, q ∈ P.erase J ↔ q ∈ P ∧ q ≠ J)) := by
  have hf := livenessFilter_of_all_alive S I v check hlive
  refine ⟨?_, ?_, ⟨?_, ?_⟩, ?_⟩
  · intro hnot
    refine ⟨?_, ?_⟩
    · rw [update_pid_list_add_eq, hf, if_neg hnot]
    · intro x
      simp [List.mem_append]
  · intro hmem
    rw [update_pid_list_add_eq, hf, if_pos hmem]
    have hne : ¬(S.length = 0) := by
      have := List.ne_nil_of_mem hmem
      simpa [List.length_eq_zero] using this
    rw [decide_eq_false hne]
  · rw [update_pid_list_remove_eq, hf]
  · intro x
    rw [List.Nodup.mem_erase_iff hnd, and_comm]
  · intro P J hP
    refine ⟨?_, ?_, ?_, ?_⟩
    · intro hnot
      refine ⟨?_, ?_⟩
      · rw [applyToggle_add_eq, if_neg hnot]
      · intro q
        simp [List.mem_append]
    · intro hmem
      rw [applyToggle_add_eq, if_pos hmem]
      have hne : ¬(P.length = 0) := by
        have := List.ne_nil_of_mem hmem
        simpa [List.length_eq_zero] using this
      rw [decide_eq_false hne]
    · rw [applyToggle_remove_eq]
    · intro q
      rw [List.Nodup.mem_erase_iff hP, and_comm]

/-- Witness for C1 at concrete inputs: acquiring 7 over the live set [3]
appends it without toggling. -/
theorem toggle_algorithm_correct_witness :
    update_pid_list [3] 7 true false (fun _ _ => true) = ([3, 7], false) :=
  (((toggle_algorithm_correct [3] 7 false (fun _ _ => true) (by decide)
    (by decide)).1 (by decide)).1)

/-- C3: the caller's own identity, when present in the registry, survives
the liveness cleanup pass whatever the probe reports, in both the pure
PID-list variant (`livenessFilter`) and the lock-file update's retain pass
(`retainPred`). -/
theorem own_identity_never_filtered
    (pids : List Int) (cur : Int) (v : Bool) (check : Int → Bool → Bool)
    (P : List ProcessId) (idc : ProcessId) (checker : Int → Nat → Bool) :
    (cur ∈ pids → cur ∈ livenessFilter pids cur v check) ∧
    (idc ∈ P → idc ∈ P.filter (retainPred idc checker)) := by
  constructor
  · intro h
    unfold livenessFilter
    rw [List.mem_filter]
    exact ⟨h, by simp⟩
  · intro h
    rw [List.mem_filter]
    refine ⟨h, ?_⟩
    unfold retainPred
    simp

/-- Witness for C3: identity 3 survives a probe that reports everything
dead, in both variants. -/
theorem own_identity_never_filtered_witness :
    ((3 : Int) ∈ livenessFilter [3] 3 false (fun _ _ => false) ∧
      (⟨1, 2⟩ : ProcessId) ∈
        List.filter (retainPred ⟨1, 2⟩ (fun _ _ => false)) [⟨1, 2⟩]) :=
  ⟨(own_identity_never_filtered [3] 3 false (fun _ _ => false)
      [⟨1, 2⟩] ⟨1, 2⟩ (fun _ _ => false)).1 (by decide),
   (own_identity_never_filtered [3] 3 false (fun _ _ => false)
      [⟨1, 2⟩] ⟨1, 2⟩ (fun _ _ => false)).2 (by decide)⟩

/-- C10: `default_process_checker` answers alive for the caller's own PID
before any start-time comparison, so under the default checker the cleanup
pass retains every entry whose PID equals the caller's PID even when its
recorded start time differs from the caller's. -/
theorem same_pid_stale_entries_retained (cur : ProcessId)
    (kill : Int → KillResult) (getst : Int → Nat) :
    (∀ st, default_process_checker cur.pid kill getst cur.pid st = true) ∧
    (∀ (pids : List ProcessId) (p : ProcessId), p ∈ pids → p.pid = cur.pid →
      p ∈ pids.filter (retainPred cur (default_process_checker cur.pid kill getst))) := by
  have h1 : ∀ st, default_process_checker cur.pid kill getst cur.pid st = true := by
    intro st
    unfold default_process_checker
    rw [if_pos rfl]
  refine ⟨h1, ?_⟩
  intro pids p hp hpid
  rw [List.mem_filter]
  refine ⟨hp, ?_⟩
  unfold retainPred
  rw [hpid, h1 p.start_time, Bool.or_true]

/-- Witness for C10: entry (5, 99) with the caller being (5, 1) is retained
even though the probe says dead and the start times disagree. -/
theorem same_pid_stale_entries_retained_witness :
    default_process_checker 5 (fun _ => KillResult.esrch) (fun _ => 0) 5 99 = true ∧
    (⟨5, 99⟩ : ProcessId) ∈ List.filter
      (retainPred ⟨5, 1⟩ (default_process_checker 5 (fun _ => KillResult.esrch) (fun _ => 0)))
      [⟨5, 99⟩] :=
  ⟨(same_pid_stale_entries_retained ⟨5, 1⟩ (fun _ => KillResult.esrch) (fun _ => 0)).1 99,
   (same_pid_stale_entries_retained ⟨5, 1⟩ (fun _ => KillResult.esrch) (fun _ => 0)).2
     [⟨5, 99⟩] ⟨5, 99⟩ (by decide) rfl⟩

/-- C2 counterexample: an entry whose probe reports an error other than
ESRCH is not unconditionally retained — with recorded start time 5 but
current start time 0 the checker drops it. This refutes the claim that any
non-ESRCH probe error means the entry is retained. -/
theorem liveness_error_entry_dropped :
    default_process_checker 1 (fun _ => KillResult.otherErr) (fun _ => 0) 2 5 = false := rfl

/-- C2 amended, covering every registry entry: an entry whose PID equals
the caller's PID is reported alive unconditionally, whatever the probe and
whatever its recorded start time (the checker's `pid == current_id`
short-circuit); for an entry whose PID differs from the caller's, ESRCH
from the probe means dropped, and any other probe answer (success or
error) means the entry is treated as alive and then still subjected to the
start-time comparison: it is retained iff the recorded start time equals
the OS's current start time for that PID. -/
theorem liveness_decision (cur : Int) (kill : Int → KillResult)
    (getst : Int → Nat) (pid : Int) (st : Nat) :
    (pid = cur → default_process_checker cur kill getst pid st = true) ∧
    (pid ≠ cur →
      (kill pid = KillResult.esrch →
        default_process_checker cur kill getst pid st = false) ∧
      (kill pid ≠ KillResult.esrch →
        (default_process_checker cur kill getst pid st = true ↔ getst pid = st))) := by
  constructor
  · intro he
    unfold default_process_checker
    rw [if_pos he]
  · intro h
    unfold default_process_checker
    rw [if_neg h]
    constructor
    · intro he
      rw [he]
      rfl
    · intro hne
      cases hk : kill pid with
      | ok => simp
      | esrch => exact absurd hk hne
      | otherErr => simp

/-- Witness for C2 (amended) at concrete inputs: an entry sharing the
caller's PID is kept even with a dead probe and mismatched start times,
and for a different PID a successful probe reduces to the start-time
comparison. -/
theorem liveness_decision_witness :
    default_process_checker 1 (fun _ => KillResult.esrch) (fun _ => 0) 1 99 = true ∧
    (default_process_checker 1 (fun _ => KillResult.ok) (fun _ => 7) 2 7 = true ↔
      (fun _ : Int => 7) 2 = 7) :=
  ⟨(liveness_decision 1 (fun _ => KillResult.esrch) (fun _ => 0) 1 99).1 rfl,
   ((liveness_decision 1 (fun _ => KillResult.ok) (fun _ => 7) 2 7).2
     (by decide)).2 (by decide)⟩

/-- C8 counterexample: a bare decimal PID line does not parse — the format
requires exactly one colon — refuting the claim that bare-PID lines are
accepted. -/
theorem bare_pid_line_rejected : ProcessId.from_str ['1', '2', '3'] = none := rfl

/-- C8 amended: every PID:START_TIME line (the serialization of a
well-formed identity) parses and is accepted into the read set; a line that
does not parse (bare PIDs included) is silently skipped; and parsing never
fails the read-modify-write cycle: whenever the open, lock and inode checks
pass, `update_lockfile` returns `ok` for arbitrary file contents. -/
theorem registry_line_parsing :
    (∀ p : ProcessId, WFId p → ProcessId.from_str (ProcessId.display p) = some p) ∧
    (∀ (lines : List (List Char)) (line : List Char) (p : ProcessId),
      ProcessId.from_str line = some p → line ∈ lines → p ∈ readPids lines) ∧
    (∀ (pre post : List (List Char)) (bad : List Char),
      ProcessId.from_str bad = none →
      readPids (pre ++ bad :: post) = readPids (pre ++ post)) ∧
    (∀ (add : Bool) (w : LockWorld) (cur : ProcessId) (checker : Int → Nat → Bool)
      (i : Nat), w.openOk = true → w.lockOk = true → w.fstatIno = some i →
      (w.pathIno = none ∨ w.pathIno = some i) →
      (update_lockfile add w cur checker).1 =
        Except.ok (applyToggle ((readPids w.content).filter (retainPred cur checker))
          cur add).2) := by
  refine ⟨from_str_display, ?_, ?_, ?_⟩
  · intro lines line p hp hm
    unfold readPids
    rw [List.mem_dedup]
    exact List.mem_filterMap.mpr ⟨line, hm, hp⟩
  · intro pre post bad hbad
    unfold readPids
    rw [List.filterMap_append, List.filterMap_append, List.filterMap_cons, hbad]
  · intro add w cur checker i ho hl hf hp
    rcases hp with hp | hp <;>
      simp [update_lockfile, lockfileBody, ho, hl, hf, hp]

/-- Witness for C8 (amended): a well-formed line round-trips, and the
update succeeds on a registry containing one garbage line. -/
theorem registry_line_parsing_witness :
    ProcessId.from_str (ProcessId.display ⟨1, 2⟩) = some ⟨1, 2⟩ ∧
    (update_lockfile true ⟨true, true, some 4, some 4, [['x']]⟩ ⟨1, 2⟩
        (fun _ _ => false)).1 =
      Except.ok (applyToggle ((readPids [['x']]).filter
        (retainPred ⟨1, 2⟩ (fun _ _ => false))) ⟨1, 2⟩ true).2 :=
  ⟨registry_line_parsing.1 ⟨1, 2⟩ (by decide),
   registry_line_parsing.2.2.2 true ⟨true, true, some 4, some 4, [['x']]⟩ ⟨1, 2⟩
     (fun _ _ => false) 4 rfl rfl rfl (Or.inr rfl)⟩

/-- C9: serializing a well-formed duplicate-free set of identities to the
lock-file line format and parsing it back yields the same set (here even
the same list, hence the same set ignoring order). -/
theorem registry_round_trip (l : List ProcessId) (hnd : l.Nodup)
    (hwf : ∀ p ∈ l, WFId p) :
    readPids (serializeRegistry l) = l ∧
    (∀ p : ProcessId, p ∈ readPids (serializeRegistry l) ↔ p ∈ l) := by
  have he : readPids (serializeRegistry l) = l := by
    unfold readPids serializeRegistry
    rw [List.filterMap_map,
      filterMap_id_of (ProcessId.from_str ∘ ProcessId.display) l
        (fun p hp => from_str_display p (hwf p hp))]
    exact List.dedup_eq_self.mpr hnd
  exact ⟨he, fun p => by rw [he]⟩

/-- Witness for C9 at a concrete two-element registry with a negative PID. -/
theorem registry_round_trip_witness :
    readPids (serializeRegistry [⟨1, 2⟩, ⟨-3, 4⟩]) = [⟨1, 2⟩, ⟨-3, 4⟩] ∧
    (∀ p : ProcessId, p ∈ readPids (serializeRegistry [⟨1, 2⟩, ⟨-3, 4⟩]) ↔
      p ∈ [(⟨1, 2⟩ : ProcessId), ⟨-3, 4⟩]) :=
  registry_round_trip [⟨1, 2⟩, ⟨-3, 4⟩] (by decide) (by decide)

/-- C5: the store verifies file identity after locking by comparing the
locked descriptor's inode against a fresh stat of the path; a mismatch
fails with the distinct `replaced` error, and this failure — like open or
lock failure — aborts the update before any write, leaving the registry
contents (indeed the whole filesystem state) unmodified. -/
theorem update_aborts_unchanged (w : LockWorld) (cur : ProcessId)
    (checker : Int → Nat → Bool) (add : Bool) :
    (w.openOk = false →
      update_lockfile add w cur checker = (Except.error LockErr.openFailed, w)) ∧
    (w.openOk = true → w.lockOk = false →
      update_lockfile add w cur checker = (Except.error LockErr.lockFailed, w)) ∧
    (∀ i j, w.openOk = true → w.lockOk = true → w.fstatIno = some i →
      w.pathIno = some j → i ≠ j →
      update_lockfile add w cur checker = (Except.error LockErr.replaced, w)) := by
  refine ⟨?_, ?_, ?_⟩
  · intro h
    unfold update_lockfile
    rw [h]
    simp
  · intro ho hl
    unfold update_lockfile
    rw [ho, hl]
    simp
  · intro i j ho hl hf hp hij
    unfold update_lockfile
    rw [ho, hl, hf, hp]
    simp only [Bool.true_eq_false, if_false]
    rw [if_pos hij]

/-- Witness for C5: a concrete world whose path inode (2) differs from the
locked file's inode (1) aborts with `replaced` and unchanged contents. -/
theorem update_aborts_unchanged_witness :
    update_lockfile true ⟨true, true, some 1, some 2, [['x']]⟩ ⟨9, 9⟩
        (fun _ _ => true) =
      (Except.error LockErr.replaced, ⟨true, true, some 1, some 2, [['x']]⟩) :=
  (update_aborts_unchanged ⟨true, true, some 1, some 2, [['x']]⟩ ⟨9, 9⟩
    (fun _ _ => true) true).2.2 1 2 rfl rfl rfl rfl (by decide)

/-- C6: sleep-capability failures are fatal on the acquire path — when the
acquire-side update reports toggle true and the disabler fails,
construction returns the capability error — and reported-only on the
release path: when the release-side update reports toggle true and the
enabler fails, drop still completes, returning the post-release filesystem
state together with the stderr report. -/
theorem capability_failure_fatality (w : LockWorld) (cur : ProcessId)
    (checker : Int → Nat → Bool) (dis : Bool → Except Nat Unit) (c : Nat) :
    ((update_lockfile true w cur checker).1 = Except.ok true →
      dis true = Except.error c →
      (with_options w cur checker dis).1 = Except.error (AcqErr.sleep c)) ∧
    ((update_lockfile false w cur checker).1 = Except.ok true →
      dis false = Except.error c →
      drop_lock w cur checker dis =
        ((update_lockfile false w cur checker).2, [enableFailMsg])) := by
  constructor
  · intro h1 h2
    rw [with_options_sleep_fail w cur checker dis c h1 h2]
  · intro h1 h2
    exact drop_lock_enable_fail w cur checker dis c h1 h2

/-- Witness for C6: acquiring over an empty registry with a failing
disabler surfaces the error; releasing the last holder with a failing
enabler still completes with a stderr report. -/
theorem capability_failure_fatality_witness :
    (with_options ⟨true, true, some 1, some 1, []⟩ ⟨1, 2⟩ (fun _ _ => false)
        (fun _ => Except.error 7)).1 = Except.error (AcqErr.sleep 7) ∧
    drop_lock ⟨true, true, some 1, some 1, [['1', ':', '2']]⟩ ⟨1, 2⟩
        (fun _ _ => false) (fun _ => Except.error 7) =
      ((update_lockfile false ⟨true, true, some 1, some 1, [['1', ':', '2']]⟩
          ⟨1, 2⟩ (fun _ _ => false)).2, [enableFailMsg]) :=
  ⟨(capability_failure_fatality ⟨true, true, some 1, some 1, []⟩ ⟨1, 2⟩
      (fun _ _ => false) (fun _ => Except.error 7) 7).1 rfl rfl,
   (capability_failure_fatality ⟨true, true, some 1, some 1, [['1', ':', '2']]⟩
      ⟨1, 2⟩ (fun _ _ => false) (fun _ => Except.error 7) 7).2 rfl rfl⟩

/-- C7: when the sleep disabler fails during acquisition after the registry
update has recorded the caller's identity, nothing is rolled back:
construction fails with the capability error while the caller's identity is
still recorded in the lock file left behind. -/
theorem no_rollback_on_sleep_failure (w : LockWorld) (cur : ProcessId)
    (checker : Int → Nat → Bool) (dis : Bool → Except Nat Unit) (c : Nat)
    (hok : (update_lockfile true w cur checker).1 = Except.ok true)
    (hdis : dis true = Except.error c) (hwf : WFId cur) :
    (with_options w cur checker dis).1 = Except.error (AcqErr.sleep c) ∧
    cur ∈ readPids (with_options w cur checker dis).2.content := by
  rw [with_options_sleep_fail w cur checker dis c hok hdis]
  refine ⟨rfl, ?_⟩
  rw [update_lockfile_ok_eq true w cur checker true hok]
  exact lockfileBody_records w cur checker hwf

/-- Witness for C7: with a failing disabler over an empty registry,
construction errors while identity (1, 2) stays recorded. -/
theorem no_rollback_on_sleep_failure_witness :
    (with_options ⟨true, true, some 3, some 3, []⟩ ⟨1, 2⟩ (fun _ _ => false)
        (fun _ => Except.error 9)).1 = Except.error (AcqErr.sleep 9) ∧
    (⟨1, 2⟩ : ProcessId) ∈ readPids
      (with_options ⟨true, true, some 3, some 3, []⟩ ⟨1, 2⟩ (fun _ _ => false)
        (fun _ => Except.error 9)).2.content :=
  no_rollback_on_sleep_failure ⟨true, true, some 3, some 3, []⟩ ⟨1, 2⟩
    (fun _ _ => false) (fun _ => Except.error 9) 9 rfl rfl (by decide)

theorem stepOp_nodup (S : List Int) (op : Bool × Int) (hnd : S.Nodup) :
    (stepOp S op).1.Nodup := by
  obtain ⟨b, i⟩ := op
  have hf := livenessFilter_of_all_alive S i false (fun _ _ => true) (fun p _ => rfl)
  cases b
  · show ((update_pid_list S i false false (fun _ _ => true)).1).Nodup
    rw [update_pid_list_remove_eq, hf]
    exact hnd.erase i
  · show ((update_pid_list S i true false (fun _ _ => true)).1).Nodup
    rw [update_pid_list_add_eq, hf]
    by_cases h : i ∈ S
    · rw [if_pos h]
      exact hnd
    · rw [if_neg h]
      simp [List.nodup_append, hnd, h]

theorem stepOp_spec (S : List Int) (op : Bool × Int)
    (h1 : op.1 = true → op.2 ∉ S) (h2 : op.1 = false → op.2 ∈ S) :
    StepSpec S op := by
  obtain ⟨b, i⟩ := op
  have hf := livenessFilter_of_all_alive S i false (fun _ _ => true) (fun p _ => rfl)
  cases b
  · have hi : i ∈ S := h2 rfl
    have e2 : stepOp S (false, i) = (S.erase i, decide ((S.erase i).length = 0)) := by
      show update_pid_list S i false false (fun _ _ => true) = _
      rw [update_pid_list_remove_eq, hf]
    constructor
    · intro hb
      exact absurd hb (by simp)
    · intro _
      rw [e2]
      constructor
      · simp [List.length_eq_zero]
      · have he := List.length_erase_of_mem hi
        have hp : 0 < S.length := List.length_pos.mpr (List.ne_nil_of_mem hi)
        simp only []
        omega
  · have hi : i ∉ S := h1 rfl
    have e1 : stepOp S (true, i) = (S ++ [i], decide (S.length = 0)) := by
      show update_pid_list S i true false (fun _ _ => true) = _
      rw [update_pid_list_add_eq, hf, if_neg hi]
    constructor
    · intro _
      rw [e1]
      constructor
      · simp [List.length_eq_zero]
      · simp
    · intro hb
      exact absurd hb (by simp)

/-- C4: along any well-formed no-crash trace of Acquire/Release operations
(acquires by identities not yet registered, releases by registered ones),
every step satisfies `StepSpec`: the toggle fires true exactly at the
count's 0 to 1 transitions (once per maximal non-empty session, at its
opening acquire) and fires on release exactly at the 1 to 0 transitions
(once, at the closing release); acquire grows the live count by exactly one
and release shrinks it by exactly one, so the count never underflows. -/
theorem trace_toggle_exactly_once (S₀ : List Int) (ops : List (Bool × Int))
    (h0 : S₀.Nodup) (hwf : WellFormedB S₀ ops = true) :
    ∀ k, k < ops.length → StepSpec (stateAt S₀ ops k) (ops.getD k (true, 0)) := by
  induction ops generalizing S₀ with
  | nil =>
    intro k hk
    simp at hk
  | cons op rest ih =>
    rw [WellFormedB, Bool.and_eq_true] at hwf
    obtain ⟨hop, hrest⟩ := hwf
    intro k hk
    cases k with
    | zero =>
      have hcond1 : op.1 = true → op.2 ∉ S₀ := by
        intro hb
        rw [if_pos hb] at hop
        exact of_decide_eq_true hop
      have hcond2 : op.1 = false → op.2 ∈ S₀ := by
        intro hb
        rw [hb] at hop
        simp only [Bool.false_eq_true, if_false] at hop
        exact of_decide_eq_true hop
      exact stepOp_spec S₀ op hcond1 hcond2
    | succ k =>
      have hst : stateAt S₀ (op :: rest) (k + 1) = stateAt (stepOp S₀ op).1 rest k := by
        unfold stateAt
        rw [List.take_succ_cons, List.foldl_cons]
      rw [hst, (rfl : (op :: rest).getD (k + 1) (true, 0) = rest.getD k (true, 0))]
      exact ih (stepOp S₀ op).1 (stepOp_nodup S₀ op h0) hrest k (by simpa using hk)

/-- Witness for C4: the final release of the trace acquire 1, acquire 2,
release 1, release 2 from the empty registry (the state before it is [2])
satisfies the per-step specification. -/
theorem trace_toggle_exactly_once_witness : StepSpec [2] (false, 2) :=
  trace_toggle_exactly_once [] [(true, 1), (true, 2), (false, 1), (false, 2)]
    (by decide) (by decide) 3 (by decide)

end Caffeinate
